import Mathlib

/-!
Verification of the StreamActions file-digest utility (src/Diff/Hash.py).

The script reads a file as UTF-8 text (Python text mode, which uses
universal-newline translation), splits it into lines keeping the line
terminators, feeds each line re-encoded as UTF-8 into a SHA3-256
accumulator, and either prints or returns the hex digest, with the
sentinel value nocontent for the empty/missing/unreadable file.

We embed the script shallowly: bytes and Unicode code points are lists of
Nat, the file system is a partial map from paths to byte contents
(an Option value models whether the open call succeeds), SHA3-256 is
implemented executably from the Keccak specification, and the printed
standard output is the list of printed lines.
-/

set_option maxRecDepth 100000

namespace Diff

/-! ## SHA3-256 (Keccak-f[1600], rate 1088) executable model -/

/-- All-ones mask for a 64-bit lane. -/
def mask64 : Nat := 2 ^ 64 - 1

/-- Rotate a 64-bit lane left by n bits (n < 64). -/
def rotl64 (x n : Nat) : Nat :=
  ((x <<< n) ||| (x >>> (64 - n))) &&& mask64

/-- One step of the degree-8 LFSR of FIPS 202 Algorithm 5: output bit
and successor state. -/
def lfsrStep (r : Nat) : Nat × Nat :=
  let r2 := r * 2
  (r % 2, if 256 ≤ r2 then (r2 ^^^ 0x171) % 256 else r2)

/-- Accumulate seven LFSR output bits into a round constant, bit j of
the output landing at position 2 ^ j - 1. -/
def rcBuild : Nat → Nat → Nat → Nat × Nat
  | 0, r, acc => (acc, r)
  | k + 1, r, acc =>
    let p := lfsrStep r
    rcBuild k p.2 (acc + p.1 * 2 ^ (2 ^ (7 - (k + 1)) - 1))

/-- The list of the first n Keccak round constants from LFSR state r. -/
def rcRounds : Nat → Nat → List Nat
  | 0, _ => []
  | n + 1, r =>
    let p := rcBuild 7 r 0
    p.1 :: rcRounds n p.2

/-- The 24 Keccak round constants, generated from the LFSR. -/
def roundConstants : List Nat :=
  rcRounds 24 1

/-- Fill the rho rotation table: position (x, y) receives the
triangular number of step t modulo 64, then (x, y) advances to
(y, 2x + 3y mod 5); the walk starts at (1, 0). -/
def rhoFill : Nat → Nat → Nat → List Nat → List Nat
  | 0, _, _, tbl => tbl
  | n + 1, x, y, tbl =>
    let t := 24 - (n + 1)
    rhoFill n y ((2 * x + 3 * y) % 5)
      (tbl.set (x + 5 * y) ((t + 1) * (t + 2) / 2 % 64))

/-- Rho rotation offsets, indexed by x + 5 * y. -/
def rhoOffsets : List Nat :=
  rhoFill 24 1 0 (List.replicate 25 0)

/-- Lane (x, y) of a 25-lane state (index x + 5 * y). -/
def lane (s : List Nat) (x y : Nat) : Nat :=
  s.getD (x % 5 + 5 * (y % 5)) 0

/-- Keccak theta step. -/
def theta (s : List Nat) : List Nat :=
  let c := (List.range 5).map fun x =>
    lane s x 0 ^^^ lane s x 1 ^^^ lane s x 2 ^^^ lane s x 3 ^^^ lane s x 4
  let d := (List.range 5).map fun x =>
    c.getD ((x + 4) % 5) 0 ^^^ rotl64 (c.getD ((x + 1) % 5) 0) 1
  (List.range 25).map fun i => s.getD i 0 ^^^ d.getD (i % 5) 0

/-- Keccak rho and pi steps combined: new lane (x, y) is the rotated
lane ((x + 3y) mod 5, x). -/
def rhoPi (s : List Nat) : List Nat :=
  (List.range 25).map fun i =>
    let x := i % 5
    let y := i / 5
    let sx := (x + 3 * y) % 5
    rotl64 (lane s sx x) (rhoOffsets.getD (sx + 5 * (x % 5)) 0)

/-- Keccak chi step. -/
def chi (s : List Nat) : List Nat :=
  (List.range 25).map fun i =>
    let x := i % 5
    let y := i / 5
    s.getD i 0 ^^^ ((mask64 ^^^ lane s (x + 1) y) &&& lane s (x + 2) y)

/-- Keccak iota step: xor the round constant into lane (0, 0). -/
def iota (rc : Nat) (s : List Nat) : List Nat :=
  match s with
  | [] => []
  | a :: rest => (a ^^^ rc) :: rest

/-- One Keccak round. -/
def keccakRound (s : List Nat) (rc : Nat) : List Nat :=
  iota rc (chi (rhoPi (theta s)))

/-- The full 24-round Keccak-f[1600] permutation. -/
def keccakF (s : List Nat) : List Nat :=
  roundConstants.foldl keccakRound s

/-- SHA3 padding (domain suffix 0x06, pad10*1) to a multiple of the
136-byte rate. -/
def sha3Pad (msg : List Nat) : List Nat :=
  let padLen := 136 - msg.length % 136
  if padLen = 1 then msg ++ [0x86]
  else msg ++ [0x06] ++ List.replicate (padLen - 2) 0 ++ [0x80]

/-- Interpret up to 8 bytes as a little-endian 64-bit lane. -/
def bytesToLane (bs : List Nat) : Nat :=
  bs.foldr (fun b acc => acc * 256 + b % 256) 0

/-- Absorb one 136-byte block into the state and permute. -/
def absorbBlock (s block : List Nat) : List Nat :=
  keccakF ((List.range 25).map fun i =>
    s.getD i 0 ^^^ (if i < 17 then bytesToLane ((block.drop (8 * i)).take 8) else 0))

/-- Absorb a padded message, 136 bytes at a time.  The fuel argument
bounds the number of blocks; it is structural so the kernel can
evaluate the function. -/
def absorbAux : Nat → List Nat → List Nat → List Nat
  | 0, s, _ => s
  | fuel + 1, s, msg =>
    if msg.length ≤ 136 then absorbBlock s msg
    else absorbAux fuel (absorbBlock s (msg.take 136)) (msg.drop 136)

/-- Absorb a padded message into the all-zero initial state. -/
def absorb (msg : List Nat) : List Nat :=
  absorbAux (msg.length / 136 + 1) (List.replicate 25 0) msg

/-- Little-endian bytes of a 64-bit lane. -/
def laneToBytes (v : Nat) : List Nat :=
  (List.range 8).map fun i => v / 256 ^ i % 256

/-- Squeeze the 32-byte SHA3-256 output from the first four lanes. -/
def squeeze (s : List Nat) : List Nat :=
  ((List.range 4).map fun i => laneToBytes (s.getD i 0)).flatten

/-- SHA3-256 of a byte sequence, as 32 output bytes. -/
def sha3_256 (msg : List Nat) : List Nat :=
  squeeze (absorb (sha3Pad msg))

/-- Lowercase hex digit for a value below 16. -/
def hexChar (n : Nat) : Char :=
  if n < 10 then Char.ofNat (48 + n) else Char.ofNat (87 + n)

/-- Two lowercase hex digits of a byte. -/
def byteToHex (b : Nat) : List Char :=
  [hexChar (b / 16 % 16), hexChar (b % 16)]

/-- Lowercase hex digest string of a byte sequence, as produced by
hexdigest in Python's hashlib. -/
def sha3_256_hex (msg : List Nat) : String :=
  String.mk ((sha3_256 msg).map byteToHex).flatten

/-! ## UTF-8 codec model (Python strict utf-8 codec) -/

/-- Strict UTF-8 decoder, one code point per step.  The fuel argument is
the length of the byte list; each step consumes at least one byte.
Rejects continuation bytes in lead position, overlong forms, surrogate
encodings and code points above U+10FFFF, exactly as Python's strict
utf-8 codec does. -/
def utf8DecodeAux : Nat → List Nat → Option (List Nat)
  | _, [] => some []
  | 0, _ :: _ => none
  | fuel + 1, b :: rest =>
    if b < 0x80 then
      (utf8DecodeAux fuel rest).map (b :: ·)
    else if b < 0xC2 then none
    else if b < 0xE0 then
      match rest with
      | b1 :: rest1 =>
        if 0x80 ≤ b1 ∧ b1 < 0xC0 then
          (utf8DecodeAux fuel rest1).map (((b - 0xC0) * 64 + (b1 - 0x80)) :: ·)
        else none
      | [] => none
    else if b < 0xF0 then
      match rest with
      | b1 :: b2 :: rest2 =>
        if (if b = 0xE0 then 0xA0 ≤ b1 ∧ b1 < 0xC0
            else if b = 0xED then 0x80 ≤ b1 ∧ b1 < 0xA0
            else 0x80 ≤ b1 ∧ b1 < 0xC0) ∧ 0x80 ≤ b2 ∧ b2 < 0xC0 then
          (utf8DecodeAux fuel rest2).map
            (((b - 0xE0) * 4096 + (b1 - 0x80) * 64 + (b2 - 0x80)) :: ·)
        else none
      | _ => none
    else if b < 0xF5 then
      match rest with
      | b1 :: b2 :: b3 :: rest3 =>
        if (if b = 0xF0 then 0x90 ≤ b1 ∧ b1 < 0xC0
            else if b = 0xF4 then 0x80 ≤ b1 ∧ b1 < 0x90
            else 0x80 ≤ b1 ∧ b1 < 0xC0) ∧
            (0x80 ≤ b2 ∧ b2 < 0xC0) ∧ (0x80 ≤ b3 ∧ b3 < 0xC0) then
          (utf8DecodeAux fuel rest3).map
            (((b - 0xF0) * 0x40000 + (b1 - 0x80) * 4096 + (b2 - 0x80) * 64 + (b3 - 0x80)) :: ·)
        else none
      | _ => none
    else none

/-- Strict UTF-8 decode of a byte list into a code-point list. -/
def utf8Decode (bytes : List Nat) : Option (List Nat) :=
  utf8DecodeAux bytes.length bytes

/-- UTF-8 encoding of one code point; fails on surrogates and values
above U+10FFFF, as Python's str.encode does. -/
def utf8EncodeChar (c : Nat) : Option (List Nat) :=
  if c < 0x80 then some [c]
  else if c < 0x800 then some [0xC0 + c / 64, 0x80 + c % 64]
  else if c < 0x10000 then
    if 0xD800 ≤ c ∧ c < 0xE000 then none
    else some [0xE0 + c / 4096, 0x80 + c / 64 % 64, 0x80 + c % 64]
  else if c < 0x110000 then
    some [0xF0 + c / 0x40000, 0x80 + c / 4096 % 64, 0x80 + c / 64 % 64, 0x80 + c % 64]
  else none

/-- UTF-8 encoding of a code-point list (the model of line.encode). -/
def utf8Encode : List Nat → Option (List Nat)
  | [] => some []
  | c :: cs =>
    match utf8EncodeChar c, utf8Encode cs with
    | some bs, some rest => some (bs ++ rest)
    | _, _ => none

/-! ## Text-mode reading (universal newlines) and line splitting -/

/-- Universal-newline translation performed by Python text-mode reading
with the default newline=None: CR LF and lone CR both become LF. -/
def translateNewlines : List Nat → List Nat
  | [] => []
  | [c] => [if c = 13 then 10 else c]
  | c :: c1 :: rest =>
    if c = 13 then
      if c1 = 10 then 10 :: translateNewlines rest
      else 10 :: translateNewlines (c1 :: rest)
    else c :: translateNewlines (c1 :: rest)

/-- Split after each LF, keeping the terminator with its line; a final
segment without a terminator is kept if nonempty (readlines semantics). -/
def splitLinesAux (acc : List Nat) : List Nat → List (List Nat)
  | [] => if acc = [] then [] else [acc.reverse]
  | c :: rest =>
    if c = 10 then (c :: acc).reverse :: splitLinesAux [] rest
    else splitLinesAux (c :: acc) rest

/-- readlines on translated text. -/
def splitLines (cs : List Nat) : List (List Nat) :=
  splitLinesAux [] cs

/-- Model of the try block around open and readlines: the file content
is none when the open call fails (missing file, permission error), and
an undecodable byte sequence makes readlines raise; in both cases the
except branch yields the empty line list. -/
def readLines (content : Option (List Nat)) : List (List Nat) :=
  match content with
  | none => []
  | some bytes =>
    match utf8Decode bytes with
    | none => []
    | some text => splitLines (translateNewlines text)

/-! ## The hash function of src/Diff/Hash.py -/

/-- The fixed sentinel constant in the source: SHA3-256 of empty input. -/
def emptyDigestHex : String :=
  "a7ffc6f8bf1ed76651c14756a061d662f580ff4de43b49fa82d80a4b80f8434a"

/-- Encode every line back to UTF-8 and concatenate; none when any
line fails to encode (the model of the update loop raising). -/
def encodeLines : List (List Nat) → Option (List Nat)
  | [] => some []
  | l :: ls =>
    match utf8Encode l, encodeLines ls with
    | some bs, some rest => some (bs ++ rest)
    | _, _ => none

/-- Model of the second try block: feed each encoded line into the
SHA3-256 accumulator and take the hex digest; none models the except
branch that sets digest to None. -/
def hashDigest (lines : List (List Nat)) : Option String :=
  (encodeLines lines).map sha3_256_hex

/-- What print(digest) writes: Python prints the text None for the
None value. -/
def printedForm (d : Option String) : String :=
  match d with
  | some s => s
  | none => "None"

/-- The function hash(args, shouldReturn) of src/Diff/Hash.py.  The
first component is the returned value (always none in print mode, since
the Python function falls off the end), the second is the list of lines
written to standard output. -/
def hash (content : Option (List Nat)) (shouldReturn : Bool) :
    Option String × List String :=
  let lines := readLines content
  let digest := hashDigest lines
  if lines.length = 0 ∨ digest = none ∨ digest = some emptyDigestHex then
    if shouldReturn then (none, []) else (none, ["nocontent"])
  else
    if shouldReturn then (digest, []) else (none, [printedForm digest])

/-! ## parseargs and the entry point -/

/-- Outcome of argparse parse_known_args for this parser: the help
action exits with status 0, a usage error exits with status 2, and
otherwise the file value is produced while unrecognized and positional
arguments are collected into the ignored extras. -/
inductive ParseResult
  | help
  | usageError
  | ok (file : String)
deriving DecidableEq, Repr

/-- Whether the first character list opens the second one
(kernel-evaluable). -/
def charsLeading : List Char → List Char → Bool
  | [], _ => true
  | _ :: _, [] => false
  | x :: xs, y :: ys => if x = y then charsLeading xs ys else false

/-- Whether one string starts with another, over the character lists. -/
def strStartsWith (s p : String) : Bool :=
  charsLeading p.data s.data

/-- Drop the first n characters of a string. -/
def strDrop (s : String) (n : Nat) : String :=
  String.mk (s.data.drop n)

/-- Decimal digit test on a character. -/
def isDigitChar (c : Char) : Bool :=
  48 ≤ c.toNat && c.toNat ≤ 57

/-- Whether every character in the list is a decimal digit. -/
def digitsOnly : List Char → Bool
  | [] => true
  | c :: cs => isDigitChar c && digitsOnly cs

/-- Tail of argparse's negative-number pattern after the dash: one or
more digits, or zero or more digits, a dot, and one or more digits. -/
def negNumTail : List Char → Bool
  | [] => false
  | c :: cs =>
    if isDigitChar c then cs.isEmpty || negNumTail cs
    else if c = Char.ofNat 46 then !cs.isEmpty && digitsOnly cs
    else false

/-- argparse's negative-number matcher: a dash followed by digits, or
by an optionally-empty digit run, a dot and more digits. -/
def negNumber (s : String) : Bool :=
  match s.data with
  | c :: cs => (c == Char.ofNat 45) && negNumTail cs
  | [] => false

/-- Whether the string contains the given character. -/
def containsChar (s : String) (c : Char) : Bool :=
  s.data.any fun d => d == c

/-- The part of the string before the first equals sign. -/
def beforeEq (s : String) : String :=
  String.mk (s.data.takeWhile fun d => !(d == Char.ofNat 61))

/-- Whether every character in the list is the letter h (argparse
parses a single-dash argument as stacked short flags). -/
def allH : List Char → Bool
  | [] => true
  | c :: cs => (c == Char.ofNat 104) && allH cs

/-- How argparse classifies one argument string for this parser.
plain: not option-like (argparse pattern A), consumable as an option
value and otherwise an ignored extra.  unknownOpt: option-like but
unrecognized (pattern O), ignored by parse_known_args but never
consumable as a value.  helpOpt: resolves to the help action.
helpErr: resolves to an option with a leftover explicit argument, a
usage error.  fileOpt: resolves to -file, consuming the next argument.
fileEq v: -file with an inline =value. -/
inductive ArgKind
  | plain
  | unknownOpt
  | helpOpt
  | helpErr
  | fileOpt
  | fileEq (v : String)
deriving DecidableEq, Repr

/-- Classification of one argument string, mirroring _parse_optional of
argparse for the parser with the help action and the required -file
option: empty, dash-free and single-dash strings are positionals; exact
option strings match first, then the equals split; a double-dash string
abbreviates --help when its part before the equals sign is a prefix of
it (a leftover explicit argument is a usage error for the zero-argument
help action); a single-dash string starting with -h is parsed as
stacked short flags, reaching help only when the tail is all h;
-f, -fi and -fil abbreviate -file; an unmatched option-like string that
looks like a negative number or contains a space is a positional, and
any other one is an unknown option.  Validated against the behavior of
argparse on Python 3.11 over an exhaustive adversarial vocabulary. -/
def classify (a : String) : ArgKind :=
  if a = "" then .plain
  else if strStartsWith a ("-") = false then .plain
  else if a = "-" then .plain
  else if a = "-h" then .helpOpt
  else if a = "--help" then .helpOpt
  else if a = "-file" then .fileOpt
  else if strStartsWith a ("--help=") then .helpErr
  else if strStartsWith a ("-file=") then .fileEq (strDrop a 6)
  else if strStartsWith a ("--") then
    if strStartsWith ("--help") (beforeEq a) then
      (if containsChar a (Char.ofNat 61) then .helpErr else .helpOpt)
    else if negNumber a || containsChar a (Char.ofNat 32) then .plain
    else .unknownOpt
  else
    if strStartsWith a ("-h") then
      (if allH (a.data.drop 2) then .helpOpt else .helpErr)
    else if a = "-f" ∨ a = "-fi" ∨ a = "-fil" then .fileOpt
    else if negNumber a || containsChar a (Char.ofNat 32) then .plain
    else .unknownOpt

/-- Whether the classification is a -file option with an inline value
(in which case the value is the part of the argument after -file=,
which classify produced with strDrop). -/
def isFileEq : ArgKind → Bool
  | .fileEq _ => true
  | _ => false

/-- The option-scanning loop of parse_known_args for this parser: the
first bare double dash ends option parsing (everything after it is a
positional extra), plain and unknown option-like arguments join the
ignored extras, help exits with status 0, an explicit-argument misuse
exits with status 2, and -file (or an abbreviation) consumes the next
argument, which argparse accepts only when it classifies as a
positional; a missing -file at the end is a usage error. -/
def parseargsAux (acc : Option String) : List String → ParseResult
  | [] =>
    match acc with
    | some f => .ok f
    | none => .usageError
  | a :: rest =>
    if a = "--" then
      match acc with
      | some f => .ok f
      | none => .usageError
    else if classify a = .helpOpt then .help
    else if classify a = .helpErr then .usageError
    else if classify a = .fileOpt then
      match rest with
      | [] => .usageError
      | v :: rest1 =>
        if classify v = .plain then parseargsAux (some v) rest1
        else .usageError
    else if isFileEq (classify a) then parseargsAux (some (strDrop a 6)) rest
    else parseargsAux acc rest

/-- The function parseargs(inargs) of src/Diff/Hash.py. -/
def parseargs (inargs : List String) : ParseResult :=
  parseargsAux none inargs

/-- The module entry point: parse the process arguments, then call hash
in print mode.  The file system is a map from paths to contents (none
when the open call would fail).  The result is the process exit status
and the lines written to standard output by hash; the help text and the
usage error message that argparse itself emits are not modelled. -/
def mainRun (fs : String → Option (List Nat)) (args : List String) :
    Nat × List String :=
  match parseargs args with
  | .help => (0, [])
  | .usageError => (2, [])
  | .ok file => (0, (hash (fs file) false).2)

/-- Lowercase hexadecimal digit test (0-9 or a-f). -/
def isLowerHexDigit (c : Char) : Bool :=
  (48 ≤ c.toNat && c.toNat ≤ 57) || (97 ≤ c.toNat && c.toNat ≤ 102)

/-! ## The no-content condition and the case analysis of hash -/

/-- The condition of the if statement in hash: the line sequence is
empty, or no digest was produced, or the digest equals the empty-input
sentinel constant. -/
abbrev noContentProp (content : Option (List Nat)) : Prop :=
  (readLines content).length = 0 ∨ hashDigest (readLines content) = none ∨
    hashDigest (readLines content) = some emptyDigestHex

/-- Unfolding of hash as a single case split on the no-content
condition. -/
theorem hash_eq (content : Option (List Nat)) (b : Bool) :
    hash content b =
      if noContentProp content then
        if b then (none, []) else (none, ["nocontent"])
      else
        if b then (hashDigest (readLines content), [])
        else (none, [printedForm (hashDigest (readLines content))]) := rfl

end Diff

namespace Diff

/-- C1: the no-content outcome occurs exactly when the line sequence is
empty, or no digest was produced, or the digest equals the constant
a7ffc6f8bf1ed76651c14756a061d662f580ff4de43b49fa82d80a4b80f8434a; in
that case return mode yields none and print mode prints the literal
nocontent, and otherwise return mode yields the digest string and print
mode prints it. -/
theorem hash_noContent_cases (content : Option (List Nat)) :
    (noContentProp content →
      hash content true = (none, []) ∧
      hash content false = (none, ["nocontent"])) ∧
    (¬ noContentProp content →
      ∃ d, hashDigest (readLines content) = some d ∧
        hash content true = (some d, []) ∧
        hash content false = (none, [d])) := by
  constructor
  · intro h
    rw [hash_eq, hash_eq, if_pos h, if_pos h]
    exact ⟨rfl, rfl⟩
  · intro h
    rcases hd : hashDigest (readLines content) with _ | d
    · exact absurd (Or.inr (Or.inl hd)) h
    · refine ⟨d, rfl, ?_, ?_⟩
      · rw [hash_eq, if_neg h, hd]
        simp
      · rw [hash_eq, if_neg h, hd]
        simp [printedForm]

/-- Witness for C1: the missing file takes the no-content branch, and a
file holding the hello line takes the digest branch. -/
theorem hash_noContent_cases_witness :
    (hash none true = (none, []) ∧ hash none false = (none, ["nocontent"])) ∧
    (∃ d, hashDigest (readLines (some [104, 101, 108, 108, 111, 10])) = some d ∧
      hash (some [104, 101, 108, 108, 111, 10]) true = (some d, []) ∧
      hash (some [104, 101, 108, 108, 111, 10]) false = (none, [d])) :=
  ⟨(hash_noContent_cases none).1 (by decide),
   (hash_noContent_cases (some [104, 101, 108, 108, 111, 10])).2 (by decide)⟩

/-- C3: a missing file and an existing zero-byte file are treated
identically: print mode emits exactly the line nocontent and return
mode yields none in both cases. -/
theorem hash_missing_eq_empty :
    hash none false = (none, ["nocontent"]) ∧
    hash (some []) false = (none, ["nocontent"]) ∧
    hash none true = (none, []) ∧
    hash (some []) true = (none, []) ∧
    hash (some []) false = hash none false ∧
    hash (some []) true = hash none true := by decide

/-- C5: the digest output is a deterministic, pure function of the file
byte content: two invocations over identical byte content produce
identical results. -/
theorem hash_deterministic (c1 c2 : List Nat) (b : Bool) (h : c1 = c2) :
    hash (some c1) b = hash (some c2) b := by rw [h]

/-- Witness for C5 at a concrete pair of identical byte contents. -/
theorem hash_deterministic_witness :
    hash (some [97, 10]) true = hash (some [97, 10]) true :=
  hash_deterministic [97, 10] [97, 10] true rfl

/-- C7: a file holding exactly the bytes of hello followed by a line
feed is read as that single line, and the digest is the SHA3-256 of
exactly that byte sequence, matching the reference value. -/
theorem hash_hello :
    readLines (some [104, 101, 108, 108, 111, 10]) =
      [[104, 101, 108, 108, 111, 10]] ∧
    hash (some [104, 101, 108, 108, 111, 10]) true =
      (some (sha3_256_hex [104, 101, 108, 108, 111, 10]), []) ∧
    sha3_256_hex [104, 101, 108, 108, 111, 10] =
      "b314e28493eae9dab57ac4f0c6d887bddbbeb810e900d818395ace558e96516d" := by
  decide

/-- C8: in return mode the outcome is exactly one of the absent value
or a digest string, never both and never neither; nothing is printed,
and the absent value occurs precisely under the no-content condition. -/
theorem hash_return_exclusive (content : Option (List Nat)) :
    (hash content true).2 = [] ∧
    ¬((hash content true).1 = none ∧ ∃ d, (hash content true).1 = some d) ∧
    ((hash content true).1 = none ∨ ∃ d, (hash content true).1 = some d) ∧
    ((hash content true).1 = none ↔ noContentProp content) := by
  by_cases h : noContentProp content
  · rw [hash_eq, if_pos h]
    simp [h]
  · rcases hd : hashDigest (readLines content) with _ | d
    · exact absurd (Or.inr (Or.inl hd)) h
    · rw [hash_eq, if_neg h]
      simp [hd, h]

/-- C2: when the open or the decode fails, the file is treated as having
zero lines and no distinct error is surfaced: the outcome is exactly the
no-content outcome of the missing file. -/
theorem hash_absorbs_failures (bytes : List Nat) (b : Bool)
    (h : utf8Decode bytes = none) :
    readLines (some bytes) = [] ∧ readLines none = [] ∧
    hash (some bytes) b = hash none b ∧
    hash (some bytes) b = (if b then (none, []) else (none, ["nocontent"])) := by
  have hr : readLines (some bytes) = [] := by
    simp [readLines, h]
  have hc : noContentProp (some bytes) := Or.inl (by rw [hr]; rfl)
  have hc0 : noContentProp (none : Option (List Nat)) := Or.inl rfl
  refine ⟨hr, rfl, ?_, ?_⟩
  · rw [hash_eq, hash_eq, if_pos hc, if_pos hc0]
  · rw [hash_eq, if_pos hc]

/-- Witness for C2: the single byte 0xFF is not valid UTF-8, and the
outcome is the nocontent line. -/
theorem hash_absorbs_failures_witness :
    readLines (some [255]) = [] ∧ readLines none = [] ∧
    hash (some [255]) false = hash none false ∧
    hash (some [255]) false =
      (if false then (none, []) else (none, ["nocontent"])) :=
  hash_absorbs_failures [255] false (by decide)

/-- hexChar produces a lowercase hex digit on values below 16. -/
theorem hexChar_isLowerHex {n : Nat} (h : n < 16) :
    isLowerHexDigit (hexChar n) = true := by
  have hall : ∀ m, m < 16 → isLowerHexDigit (hexChar m) = true := by decide
  exact hall n h

/-- Both characters of byteToHex are lowercase hex digits. -/
theorem byteToHex_isLowerHex (b : Nat) :
    ∀ c ∈ byteToHex b, isLowerHexDigit c = true := by
  intro c hc
  simp only [byteToHex, List.mem_cons, List.not_mem_nil, or_false] at hc
  rcases hc with h | h <;> subst h <;>
    exact hexChar_isLowerHex (Nat.mod_lt _ (by omega))

/-- The hex digest string always has 64 characters. -/
theorem sha3_256_hex_length (msg : List Nat) : (sha3_256_hex msg).length = 64 := rfl

/-- Every character of the hex digest string is a lowercase hex digit. -/
theorem sha3_256_hex_chars (msg : List Nat) :
    ∀ c ∈ (sha3_256_hex msg).data, isLowerHexDigit c = true := by
  intro c hc
  have hd : (sha3_256_hex msg).data = ((sha3_256 msg).map byteToHex).flatten := rfl
  rw [hd] at hc
  rcases List.mem_flatten.mp hc with ⟨l, hl, hcl⟩
  rcases List.mem_map.mp hl with ⟨b, _, rfl⟩
  exact byteToHex_isLowerHex b c hcl

/-- C4: print mode writes exactly one line, and that line is either the
literal nocontent or a 64-character lowercase hexadecimal digest. -/
theorem hash_print_one_line (content : Option (List Nat)) :
    ∃ out, (hash content false).2 = [out] ∧
      (out = "nocontent" ∨
        (out.length = 64 ∧ ∀ c ∈ out.data, isLowerHexDigit c = true)) := by
  by_cases h : noContentProp content
  · exact ⟨"nocontent", by rw [hash_eq, if_pos h]; simp, Or.inl rfl⟩
  · rcases hd : hashDigest (readLines content) with _ | d
    · exact absurd (Or.inr (Or.inl hd)) h
    · simp only [hashDigest] at hd
      rcases Option.map_eq_some'.mp hd with ⟨bs, _, rfl⟩
      refine ⟨sha3_256_hex bs, ?_,
        Or.inr ⟨sha3_256_hex_length bs, sha3_256_hex_chars bs⟩⟩
      rw [hash_eq, if_neg h]
      simp only [hashDigest, hd, printedForm]
      simp

/-- The concatenation of the split lines recovers the text together
with the pending accumulator. -/
theorem splitLinesAux_flatten (cs : List Nat) :
    ∀ acc, (splitLinesAux acc cs).flatten = acc.reverse ++ cs := by
  induction cs with
  | nil =>
    intro acc
    by_cases h : acc = []
    · subst h; simp [splitLinesAux]
    · simp [splitLinesAux, h]
  | cons c rest ih =>
    intro acc
    by_cases h : c = 10
    · simp [splitLinesAux, h, ih []]
    · simp [splitLinesAux, h, ih (c :: acc)]

/-- readlines keeps the line terminators: concatenating the lines gives
back the text. -/
theorem splitLines_flatten (cs : List Nat) : (splitLines cs).flatten = cs := by
  simpa using splitLinesAux_flatten cs []

/-- UTF-8 encoding distributes over concatenation. -/
theorem utf8Encode_append (xs ys : List Nat) :
    utf8Encode (xs ++ ys) =
      match utf8Encode xs, utf8Encode ys with
      | some a, some b => some (a ++ b)
      | _, _ => none := by
  induction xs with
  | nil =>
    rcases h : utf8Encode ys with _ | r <;> simp [utf8Encode, h]
  | cons c cs ih =>
    simp only [List.cons_append, utf8Encode, ih]
    rcases h1 : utf8EncodeChar c with _ | bs <;>
      rcases h2 : utf8Encode cs with _ | r <;>
      rcases h3 : utf8Encode ys with _ | r2 <;> simp [ih, h1, h2, h3]

/-- Feeding each line into the accumulator is the same as hashing the
concatenation of the lines. -/
theorem encodeLines_flatten (lines : List (List Nat)) :
    encodeLines lines = utf8Encode lines.flatten := by
  induction lines with
  | nil => rfl
  | cons l ls ih =>
    simp only [encodeLines, List.flatten_cons, utf8Encode_append, ih]

/-- Every code point of the translated text is a code point of the
original text or the line feed. -/
theorem mem_translateNewlines : ∀ (cs : List Nat) (c : Nat),
    c ∈ translateNewlines cs → c ∈ cs ∨ c = 10
  | [], c, h => by simp [translateNewlines] at h
  | [d], c, h => by
    simp only [translateNewlines, List.mem_singleton] at h
    subst h
    by_cases hd : d = 13
    · simp [hd]
    · simp [hd]
  | d :: d1 :: rest, c, h => by
    simp only [translateNewlines] at h
    by_cases hd : d = 13
    · rw [if_pos hd] at h
      by_cases hd1 : d1 = 10
      · rw [if_pos hd1] at h
        rcases List.mem_cons.mp h with rfl | h2
        · right; rfl
        · rcases mem_translateNewlines rest c h2 with h3 | h3
          · left; simp [h3]
          · right; exact h3
      · rw [if_neg hd1] at h
        rcases List.mem_cons.mp h with rfl | h2
        · right; rfl
        · rcases mem_translateNewlines (d1 :: rest) c h2 with h3 | h3
          · left; exact List.mem_cons_of_mem _ h3
          · right; exact h3
    · rw [if_neg hd] at h
      rcases List.mem_cons.mp h with rfl | h2
      · left; exact List.mem_cons_self _ _
      · rcases mem_translateNewlines (d1 :: rest) c h2 with h3 | h3
        · left; exact List.mem_cons_of_mem _ h3
        · right; exact h3

/-- UTF-8 encoding of a text succeeds exactly when every code point
encodes. -/
theorem utf8Encode_isSome_iff (cs : List Nat) :
    (utf8Encode cs).isSome = true ↔
      ∀ c ∈ cs, (utf8EncodeChar c).isSome = true := by
  induction cs with
  | nil => simp [utf8Encode]
  | cons c rest ih =>
    simp only [utf8Encode, List.mem_cons]
    rcases h1 : utf8EncodeChar c with _ | bs <;>
      rcases h2 : utf8Encode rest with _ | r
    · rw [h2] at ih
      constructor
      · intro h; exact absurd h (by simp)
      · intro hall
        have hc := hall c (Or.inl rfl)
        rw [h1] at hc
        exact absurd hc (by simp)
    · constructor
      · intro h; exact absurd h (by simp)
      · intro hall
        have hc := hall c (Or.inl rfl)
        rw [h1] at hc
        exact absurd hc (by simp)
    · rw [h2] at ih
      constructor
      · intro h; exact absurd h (by simp)
      · intro hall
        have hr := ih.mpr fun d hd => hall d (Or.inr hd)
        exact absurd hr (by simp)
    · rw [h2] at ih
      constructor
      · intro _ d hd
        rcases hd with rfl | hd
        · simp [h1]
        · exact ih.mp (by simp) d hd
      · intro _; simp

/-- Strict UTF-8 decoding is a section of UTF-8 encoding: re-encoding
the decoded code points yields exactly the original bytes.  Hence the
bytes fed to the hash are the original file bytes, apart from the
newline translation of text mode. -/
theorem utf8DecodeAux_encode :
    ∀ (fuel : Nat) (bytes text : List Nat),
      utf8DecodeAux fuel bytes = some text → utf8Encode text = some bytes := by
  intro fuel
  induction fuel with
  | zero =>
    intro bytes text h
    cases bytes with
    | nil =>
      simp only [utf8DecodeAux, Option.some.injEq] at h
      subst h; rfl
    | cons b rest => simp [utf8DecodeAux] at h
  | succ fuel ih =>
    intro bytes text h
    cases bytes with
    | nil =>
      simp only [utf8DecodeAux, Option.some.injEq] at h
      subst h; rfl
    | cons b rest =>
      simp only [utf8DecodeAux] at h
      by_cases h1 : b < 0x80
      · rw [if_pos h1] at h
        rcases hr : utf8DecodeAux fuel rest with _ | tr <;> rw [hr] at h
        · simp at h
        · simp at h
          subst h
          have hrec := ih rest tr hr
          simp [utf8Encode, utf8EncodeChar, if_pos h1, hrec]
      · rw [if_neg h1] at h
        by_cases h2 : b < 0xC2
        · rw [if_pos h2] at h
          exact absurd h (by simp)
        · rw [if_neg h2] at h
          by_cases h3 : b < 0xE0
          · -- two-byte sequence
            rw [if_pos h3] at h
            cases rest with
            | nil => exact absurd h (by simp)
            | cons b1 rest1 =>
              replace h : (if 0x80 ≤ b1 ∧ b1 < 0xC0 then
                  (utf8DecodeAux fuel rest1).map
                    (((b - 0xC0) * 64 + (b1 - 0x80)) :: ·)
                else none) = some text := h
              by_cases h4 : 0x80 ≤ b1 ∧ b1 < 0xC0
              · rw [if_pos h4] at h
                rcases hr : utf8DecodeAux fuel rest1 with _ | tr <;> rw [hr] at h
                · simp at h
                · simp at h
                  subst h
                  have hrec := ih rest1 tr hr
                  have hc1 : ¬ (b - 0xC0) * 64 + (b1 - 0x80) < 0x80 := by omega
                  have hc2 : (b - 0xC0) * 64 + (b1 - 0x80) < 0x800 := by omega
                  have e1 : 0xC0 + ((b - 0xC0) * 64 + (b1 - 0x80)) / 64 = b := by
                    omega
                  have e2 : 0x80 + ((b - 0xC0) * 64 + (b1 - 0x80)) % 64 = b1 := by
                    omega
                  have hchar : utf8EncodeChar ((b - 0xC0) * 64 + (b1 - 0x80)) =
                      some [b, b1] := by
                    rw [utf8EncodeChar, if_neg hc1, if_pos hc2, e1, e2]
                  simp [utf8Encode, hchar, hrec]
              · rw [if_neg h4] at h
                exact absurd h (by simp)
          · rw [if_neg h3] at h
            by_cases h5 : b < 0xF0
            · -- three-byte sequence
              rw [if_pos h5] at h
              cases rest with
              | nil => exact absurd h (by simp)
              | cons b1 rest1 =>
                cases rest1 with
                | nil => exact absurd h (by simp)
                | cons b2 rest2 =>
                  replace h : (if (if b = 0xE0 then 0xA0 ≤ b1 ∧ b1 < 0xC0
                        else if b = 0xED then 0x80 ≤ b1 ∧ b1 < 0xA0
                        else 0x80 ≤ b1 ∧ b1 < 0xC0) ∧ 0x80 ≤ b2 ∧ b2 < 0xC0 then
                      (utf8DecodeAux fuel rest2).map
                        (((b - 0xE0) * 4096 + (b1 - 0x80) * 64 + (b2 - 0x80)) :: ·)
                    else none) = some text := h
                  by_cases h4 : (if b = 0xE0 then 0xA0 ≤ b1 ∧ b1 < 0xC0
                      else if b = 0xED then 0x80 ≤ b1 ∧ b1 < 0xA0
                      else 0x80 ≤ b1 ∧ b1 < 0xC0) ∧ 0x80 ≤ b2 ∧ b2 < 0xC0
                  · rw [if_pos h4] at h
                    rcases h4 with ⟨hb1, hb2, hb3⟩
                    have hkey : (0x80 ≤ b1 ∧ b1 < 0xC0) ∧
                        (b = 0xE0 → 0xA0 ≤ b1) ∧ (b = 0xED → b1 < 0xA0) := by
                      by_cases hE : b = 0xE0
                      · rw [if_pos hE] at hb1
                        exact ⟨⟨by omega, hb1.2⟩, fun _ => hb1.1,
                          fun hD => by omega⟩
                      · rw [if_neg hE] at hb1
                        by_cases hD : b = 0xED
                        · rw [if_pos hD] at hb1
                          exact ⟨⟨hb1.1, by omega⟩, fun hE2 => absurd hE2 hE,
                            fun _ => hb1.2⟩
                        · rw [if_neg hD] at hb1
                          exact ⟨hb1, fun hE2 => absurd hE2 hE,
                            fun hD2 => absurd hD2 hD⟩
                    rcases hr : utf8DecodeAux fuel rest2 with _ | tr <;> rw [hr] at h
                    · simp at h
                    · simp at h
                      subst h
                      have hrec := ih rest2 tr hr
                      have hc1 : ¬ (b - 0xE0) * 4096 + (b1 - 0x80) * 64 +
                          (b2 - 0x80) < 0x80 := by omega
                      have hc2 : ¬ (b - 0xE0) * 4096 + (b1 - 0x80) * 64 +
                          (b2 - 0x80) < 0x800 := by omega
                      have hc3 : (b - 0xE0) * 4096 + (b1 - 0x80) * 64 +
                          (b2 - 0x80) < 0x10000 := by omega
                      have hc4 : ¬ (0xD800 ≤ (b - 0xE0) * 4096 + (b1 - 0x80) * 64 +
                          (b2 - 0x80) ∧
                          (b - 0xE0) * 4096 + (b1 - 0x80) * 64 + (b2 - 0x80) <
                            0xE000) := by omega
                      have e1 : 0xE0 + ((b - 0xE0) * 4096 + (b1 - 0x80) * 64 +
                          (b2 - 0x80)) / 4096 = b := by omega
                      have e2 : 0x80 + ((b - 0xE0) * 4096 + (b1 - 0x80) * 64 +
                          (b2 - 0x80)) / 64 % 64 = b1 := by omega
                      have e3 : 0x80 + ((b - 0xE0) * 4096 + (b1 - 0x80) * 64 +
                          (b2 - 0x80)) % 64 = b2 := by omega
                      have hchar : utf8EncodeChar ((b - 0xE0) * 4096 +
                          (b1 - 0x80) * 64 + (b2 - 0x80)) = some [b, b1, b2] := by
                        rw [utf8EncodeChar, if_neg hc1, if_neg hc2, if_pos hc3,
                          if_neg hc4, e1, e2, e3]
                      simp [utf8Encode, hchar, hrec]
                  · rw [if_neg h4] at h
                    exact absurd h (by simp)
            · rw [if_neg h5] at h
              by_cases h6 : b < 0xF5
              · -- four-byte sequence
                rw [if_pos h6] at h
                cases rest with
                | nil => exact absurd h (by simp)
                | cons b1 rest1 =>
                  cases rest1 with
                  | nil => exact absurd h (by simp)
                  | cons b2 rest2 =>
                    cases rest2 with
                    | nil => exact absurd h (by simp)
                    | cons b3 rest3 =>
                      replace h : (if (if b = 0xF0 then 0x90 ≤ b1 ∧ b1 < 0xC0
                            else if b = 0xF4 then 0x80 ≤ b1 ∧ b1 < 0x90
                            else 0x80 ≤ b1 ∧ b1 < 0xC0) ∧
                            (0x80 ≤ b2 ∧ b2 < 0xC0) ∧ (0x80 ≤ b3 ∧ b3 < 0xC0) then
                          (utf8DecodeAux fuel rest3).map
                            (((b - 0xF0) * 0x40000 + (b1 - 0x80) * 4096 +
                              (b2 - 0x80) * 64 + (b3 - 0x80)) :: ·)
                        else none) = some text := h
                      by_cases h4 : (if b = 0xF0 then 0x90 ≤ b1 ∧ b1 < 0xC0
                          else if b = 0xF4 then 0x80 ≤ b1 ∧ b1 < 0x90
                          else 0x80 ≤ b1 ∧ b1 < 0xC0) ∧
                          (0x80 ≤ b2 ∧ b2 < 0xC0) ∧ (0x80 ≤ b3 ∧ b3 < 0xC0)
                      · rw [if_pos h4] at h
                        rcases h4 with ⟨hb1, ⟨hb2, hb3⟩, hb4, hb5⟩
                        have hkey : (0x80 ≤ b1 ∧ b1 < 0xC0) ∧
                            (b = 0xF0 → 0x90 ≤ b1) ∧ (b = 0xF4 → b1 < 0x90) := by
                          by_cases hE : b = 0xF0
                          · rw [if_pos hE] at hb1
                            exact ⟨⟨by omega, hb1.2⟩, fun _ => hb1.1,
                              fun hD => by omega⟩
                          · rw [if_neg hE] at hb1
                            by_cases hD : b = 0xF4
                            · rw [if_pos hD] at hb1
                              exact ⟨⟨hb1.1, by omega⟩, fun hE2 => absurd hE2 hE,
                                fun _ => hb1.2⟩
                            · rw [if_neg hD] at hb1
                              exact ⟨hb1, fun hE2 => absurd hE2 hE,
                                fun hD2 => absurd hD2 hD⟩
                        rcases hr : utf8DecodeAux fuel rest3 with _ | tr <;>
                          rw [hr] at h
                        · simp at h
                        · simp at h
                          subst h
                          have hrec := ih rest3 tr hr
                          have hc1 : ¬ (b - 0xF0) * 0x40000 + (b1 - 0x80) * 4096 +
                              (b2 - 0x80) * 64 + (b3 - 0x80) < 0x80 := by omega
                          have hc2 : ¬ (b - 0xF0) * 0x40000 + (b1 - 0x80) * 4096 +
                              (b2 - 0x80) * 64 + (b3 - 0x80) < 0x800 := by omega
                          have hc3 : ¬ (b - 0xF0) * 0x40000 + (b1 - 0x80) * 4096 +
                              (b2 - 0x80) * 64 + (b3 - 0x80) < 0x10000 := by omega
                          have hc4 : (b - 0xF0) * 0x40000 + (b1 - 0x80) * 4096 +
                              (b2 - 0x80) * 64 + (b3 - 0x80) < 0x110000 := by omega
                          have e1 : 0xF0 + ((b - 0xF0) * 0x40000 +
                              (b1 - 0x80) * 4096 + (b2 - 0x80) * 64 +
                              (b3 - 0x80)) / 0x40000 = b := by omega
                          have e2 : 0x80 + ((b - 0xF0) * 0x40000 +
                              (b1 - 0x80) * 4096 + (b2 - 0x80) * 64 +
                              (b3 - 0x80)) / 4096 % 64 = b1 := by omega
                          have e3 : 0x80 + ((b - 0xF0) * 0x40000 +
                              (b1 - 0x80) * 4096 + (b2 - 0x80) * 64 +
                              (b3 - 0x80)) / 64 % 64 = b2 := by omega
                          have e4 : 0x80 + ((b - 0xF0) * 0x40000 +
                              (b1 - 0x80) * 4096 + (b2 - 0x80) * 64 +
                              (b3 - 0x80)) % 64 = b3 := by omega
                          have hchar : utf8EncodeChar ((b - 0xF0) * 0x40000 +
                              (b1 - 0x80) * 4096 + (b2 - 0x80) * 64 +
                              (b3 - 0x80)) = some [b, b1, b2, b3] := by
                            rw [utf8EncodeChar, if_neg hc1, if_neg hc2,
                              if_neg hc3, if_pos hc4, e1, e2, e3, e4]
                          simp [utf8Encode, hchar, hrec]
                      · rw [if_neg h4] at h
                        exact absurd h (by simp)
              · rw [if_neg h6] at h
                exact absurd h (by simp)

/-- Re-encoding the full decoded text reproduces the file bytes. -/
theorem utf8Decode_encode (bytes text : List Nat)
    (h : utf8Decode bytes = some text) : utf8Encode text = some bytes :=
  utf8DecodeAux_encode bytes.length bytes text h

/-- C6 counterexample: the files a CR LF and a LF differ only in their
line-terminator bytes yet produce the same digest (not the nocontent
result), because text-mode reading translates CR LF to LF before the
lines are hashed. -/
theorem hash_newline_collision :
    [97, 13, 10] ≠ [97, 10] ∧
    hash (some [97, 13, 10]) true = hash (some [97, 10]) true ∧
    hash (some [97, 13, 10]) true =
      (some "be5215abf72333a73b992dafdf4ab59884b948452e0015cfaddaa0b87a0e4515",
        []) := by
  decide

/-- C6 amended: text-mode reading translates CR LF and lone CR to LF
before line splitting; apart from this newline normalization no change
is made to the content: the decoded text re-encodes to exactly the
original bytes, and the digest is the SHA3-256 of the UTF-8 encoding of
the newline-translated text.  Trailing-newline differences still change
the digest, as on the files a and a LF. -/
theorem hash_translate_exact (bytes text : List Nat)
    (h : utf8Decode bytes = some text) :
    utf8Encode text = some bytes ∧
    hashDigest (readLines (some bytes)) =
      (utf8Encode (translateNewlines text)).map sha3_256_hex ∧
    (hash (some [97]) true).1 ≠ (hash (some [97, 10]) true).1 := by
  refine ⟨utf8Decode_encode bytes text h, ?_, by decide⟩
  simp only [readLines, h, hashDigest, encodeLines_flatten, splitLines_flatten]

/-- Witness for C6 amended at the file a CR LF. -/
theorem hash_translate_exact_witness :
    utf8Encode [97, 13, 10] = some [97, 13, 10] ∧
    hashDigest (readLines (some [97, 13, 10])) =
      (utf8Encode (translateNewlines [97, 13, 10])).map sha3_256_hex ∧
    (hash (some [97]) true).1 ≠ (hash (some [97, 10]) true).1 :=
  hash_translate_exact [97, 13, 10] [97, 13, 10] (by decide)

/-- C10: hashing the line sequence of a readable file can never fail:
every line obtained from a successful UTF-8 decode re-encodes without
error, so a digest is always produced, the except branch that sets the
digest to None is unreachable, and the no-digest disjunct of the
no-content test never holds at all. -/
theorem hashDigest_isSome (content : Option (List Nat)) :
    (hashDigest (readLines content)).isSome = true := by
  rcases content with _ | bytes
  · rfl
  · rcases hdec : utf8Decode bytes with _ | text
    · simp [readLines, hdec, hashDigest, encodeLines]
    · have henc := utf8Decode_encode bytes text hdec
      have hall : ∀ c ∈ text, (utf8EncodeChar c).isSome = true :=
        (utf8Encode_isSome_iff text).mp (by rw [henc]; rfl)
      have hall2 : ∀ c ∈ translateNewlines text,
          (utf8EncodeChar c).isSome = true := by
        intro c hc
        rcases mem_translateNewlines text c hc with h1 | rfl
        · exact hall c h1
        · decide
      have hsome := (utf8Encode_isSome_iff (translateNewlines text)).mpr hall2
      rcases ho : utf8Encode (translateNewlines text) with _ | ebs
      · rw [ho] at hsome
        exact absurd hsome (by simp)
      · simp [readLines, hdec, hashDigest, encodeLines_flatten,
          splitLines_flatten, ho]

/-- Arguments that argparse classifies as positionals or unknown
options are skipped by the scan without changing the already-resolved
file value. -/
theorem parseargsAux_ignores (extra : List String) :
    ∀ f, (∀ a ∈ extra, classify a = .plain ∨ classify a = .unknownOpt) →
      parseargsAux (some f) extra = .ok f := by
  induction extra with
  | nil => intro f _; rfl
  | cons a rest ih =>
    intro f hall
    have ha := hall a (List.mem_cons_self _ _)
    have hne : a ≠ "--" := by
      intro heq
      subst heq
      rcases ha with h | h <;> exact absurd h (by decide)
    conv_lhs => rw [parseargsAux.eq_def]
    simp only []
    rw [if_neg hne]
    rcases ha with h | h <;>
      rw [if_neg (by simp [h]), if_neg (by simp [h]), if_neg (by simp [h]),
        if_neg (by simp [h, isFileEq])] <;>
      exact ih f fun d hd => hall d (List.mem_cons_of_mem _ hd)

/-- C9 counterexample: with an empty process argument list, argparse
reports the missing required -file option and the program exits with
status 2 rather than exiting successfully. -/
theorem mainRun_empty_args_exit :
    mainRun (fun _ => none) [] = (2, []) ∧
    (mainRun (fun _ => none) []).1 ≠ 0 := by
  decide

/-- C9 amended: when -file is supplied with a value that argparse
classifies as a positional, the program exits with status 0 even when
the named file does not exist, and extra arguments that argparse
classifies as positionals or unknown options are ignored rather than
rejected; but when -file is missing from the argument list, argparse
exits with status 2 instead of succeeding. -/
theorem mainRun_exit_status (fs : String → Option (List Nat)) (path : String)
    (extra : List String) (hpath : classify path = .plain)
    (hextra : ∀ a ∈ extra, classify a = .plain ∨ classify a = .unknownOpt) :
    parseargs ("-file" :: path :: extra) = .ok path ∧
    mainRun fs ("-file" :: path :: extra) = (0, (hash (fs path) false).2) ∧
    mainRun fs [] = (2, []) := by
  have h0 : parseargs ("-file" :: path :: extra) =
      (if classify path = ArgKind.plain then parseargsAux (some path) extra
       else ParseResult.usageError) := rfl
  have hp : parseargs ("-file" :: path :: extra) = .ok path := by
    rw [h0, if_pos hpath]
    exact parseargsAux_ignores extra path hextra
  refine ⟨hp, ?_, rfl⟩
  simp only [mainRun, hp]

/-- Witness for C9 amended: the file x does not exist and the argument
junk is ignored, yet the run exits with status 0. -/
theorem mainRun_exit_status_witness :
    parseargs ["-file", "x", "junk"] = .ok "x" ∧
    mainRun (fun _ => none) ["-file", "x", "junk"] =
      (0, (hash ((fun _ => (none : Option (List Nat))) "x") false).2) ∧
    mainRun (fun _ => none) [] = (2, []) :=
  mainRun_exit_status (fun _ => none) "x" ["junk"] (by decide) (by decide)

end Diff
